import Mathlib

/-!
# eps-conduit: the configuration and round-robin cursor of `config.go`

A shallow embedding of `src/config.go`.  Go methods on `*Config` that mutate
the receiver become functions returning the updated `Config`; code that ends
the process with `log.Fatal` returns `Except.error`; indexing that would panic
returns `none`.  A Go `string` is modelled by the list of its characters, a Go
`int` by an `Int` with 64-bit wrap-around on addition; theorems about a pool
of `N` backends carry `N ≤ maxInt`, which holds of every Go slice length.
Concurrent callers are modelled by interleaving the steps of their selections,
`pickHost` being split into its load and its store.
-/

namespace EpsConduit

/-! ## Data model -/

/-- A Go string, as the list of its characters. -/
abbrev GoString := List Char

/-- Largest value of a Go `int` on a 64-bit platform. -/
def maxInt : Int := 2 ^ 63 - 1

/-- Two's-complement wrap-around of a 64-bit signed result. -/
def wrapInt (x : Int) : Int := (x + 2 ^ 63) % 2 ^ 64 - 2 ^ 63

/-- The part of `url.URL` a request carries. -/
structure URL where
  Scheme : GoString
  Opaque : GoString
  User : Option (GoString × Option GoString)
  Host : GoString
  Path : GoString
  RawPath : GoString
  RawQuery : GoString
  Fragment : GoString
deriving DecidableEq, Repr

/-- The part of `http.Request` a director can see. -/
structure Request where
  Method : GoString
  URL : URL
  Proto : GoString
  Header : List (GoString × List GoString)
  Body : List Nat
  Host : GoString
  RemoteAddr : GoString
  RequestURI : GoString
deriving DecidableEq, Repr

/-- The `httputil.ReverseProxy` literal of `makeProxies`: only `Director` is
set.  The director mutates the request it is handed; here it returns the
request after the mutation. -/
structure ReverseProxy where
  Director : Request → Request

/-- The `Config` struct (config.go, lines 14-37).  An entry of `Proxies` is a
pointer, `none` standing for `nil`. -/
structure Config where
  Backends : List GoString
  Bind : GoString
  Mode : GoString
  Certfile : GoString
  Keyfile : GoString
  Proxies : List (Option ReverseProxy)
  HostCount : Int
  NextHost : Int

/-- The value `new(Config)` points to: every field zero. -/
def Config.zero : Config :=
  { Backends := [], Bind := [], Mode := [], Certfile := [], Keyfile := [],
    Proxies := [], HostCount := 0, NextHost := 0 }

/-- The command-line flag variables `*backendStr`, `*bind`, `*mode`,
`*certFile`, `*keyFile` read (and, for the first, written) by
`handleUserInput`. -/
structure Flags where
  backendStr : GoString
  bind : GoString
  mode : GoString
  certFile : GoString
  keyFile : GoString
deriving DecidableEq, Repr

/-! ## pickHost -/

/-- Method `pickHost` (config.go, lines 121-128): the cursor moves one step
forward and returns to 0 once the step reaches `HostCount`.  The comment above
it speaks of a returned integer; the method has no result and only stores the
cursor. -/
def Config.pickHost (c : Config) : Config :=
  let nextHost := wrapInt (c.NextHost + 1)
  if nextHost ≥ c.HostCount then
    { c with NextHost := 0 }
  else
    { c with NextHost := nextHost }

/-- Go slice indexing `xs[i]` with an `int` index: `none` is the run-time
panic for an index out of range. -/
def index {α : Type} (xs : List α) (i : Int) : Option α :=
  if 0 ≤ i then xs.get? i.toNat else none

/-! ## The library functions `handleUserInput` calls -/

/-- Go `strings.Replace(s, old, new, -1)` for a one-character `old`: every
occurrence of `old` is replaced by `new`, left to right. -/
def strings.Replace : GoString → Char → GoString → GoString
  | [], _, _ => []
  | c :: cs, old, new =>
    if c = old then new ++ strings.Replace cs old new
    else c :: strings.Replace cs old new

/-- Go `strings.Split(s, sep)` for a one-character `sep`: the pieces of `s`
between consecutive separators, one more piece than there are separators (so
the empty string gives one empty piece).  The result is never empty
(`Split_ne_nil`), so the first branch of the inner match is never taken. -/
def strings.Split : GoString → Char → List GoString
  | [], _ => [[]]
  | c :: cs, sep =>
    if c = sep then [] :: strings.Split cs sep
    else
      match strings.Split cs sep with
      | [] => [[c]]
      | p :: ps => (c :: p) :: ps

/-- Go `strings.Join(elems, sep)`. -/
def strings.Join : List GoString → GoString → GoString
  | [], _ => []
  | [a], _ => a
  | a :: b :: rest, sep => a ++ sep ++ strings.Join (b :: rest) sep

/-! ## handleUserInput, printConfigInfo, makeProxies -/

/-- Method `handleUserInput` (config.go, lines 71-91).  Returns the updated
`Config` together with the flag variables, since `*backendStr` is overwritten
with its space-free form.  The comment at line 74 speaks of whitespace; the
call removes the space character only, so a tab stays. -/
def Config.handleUserInput (c : Config) (f : Flags) : Config × Flags :=
  let cf : Config × Flags :=
    if f.backendStr ≠ [] then
      let stripped := strings.Replace f.backendStr ' ' []
      ({ c with Backends := strings.Split stripped ',' }, { f with backendStr := stripped })
    else (c, f)
  let c := cf.1
  let f := cf.2
  let c := if f.bind ≠ [] then { c with Bind := f.bind } else c
  let c := if f.mode ≠ [] then { c with Mode := f.mode } else c
  let c := if f.certFile ≠ [] then { c with Certfile := f.certFile } else c
  let c := if f.keyFile ≠ [] then { c with Keyfile := f.keyFile } else c
  (c, f)

/-- Method `printConfigInfo` (config.go, lines 94-100): the lines handed to
`log.Println`, in order.  The `Config` is only read. -/
def Config.printConfigInfo (c : Config) : List GoString :=
  c.Backends.map (fun v => "using ".toList ++ v ++ " as a backend".toList)
    ++ ["listening on port ".toList ++ c.Bind]

/-- The closure `director` of `makeProxies` (config.go, lines 111-114) for
the captured variable `host`. -/
def director (host : GoString) (req : Request) : Request :=
  let req := { req with URL := { req.URL with Scheme := "http".toList } }
  { req with URL := { req.URL with Host := host } }

/-- Method `makeProxies` (config.go, lines 104-117): a slice of
`len(c.Backends)` nil pointers, then one assignment per index `i` of
`c.Backends`, in increasing order.  The comment above it speaks of a returned
slice; the method has no result and assigns the slice to `c.Proxies`. -/
def Config.makeProxies (c : Config) : Config :=
  let proxies : List (Option ReverseProxy) := List.replicate c.Backends.length none
  { c with
    Proxies := (List.finRange c.Backends.length).foldl
      (fun ps i =>
        let host := c.Backends.get i
        ps.set i.val (some { Director := director host }))
      proxies }

/-! ## init and GetConfig -/

/-- What `init` reads from outside the program: whether `os.Stat` finds the
file, and what `toml.DecodeFile` makes of it when decoding into a `Config`
(an error message, or the `Config` with the file's keys filled in). -/
structure Env where
  stat : GoString → Bool
  decodeFile : GoString → Config → Except GoString Config

/-- The two `log.Fatal` exits of `init`. -/
inductive Fatal where
  | configFileNotFound (configFile : GoString)
  | decodeError (err : GoString)
deriving DecidableEq, Repr

/-- What a completed `init` leaves behind: the `Config`, the flag variables
and the lines logged. -/
structure Started where
  config : Config
  flags : Flags
  logged : List GoString

/-- Method `init` (config.go, lines 53-67). -/
def Config.init (c : Config) (env : Env) (f : Flags) (configFile : GoString) :
    Except Fatal Started :=
  if env.stat configFile = false then
    Except.error (Fatal.configFileNotFound configFile)
  else
    match env.decodeFile configFile c with
    | Except.error err => Except.error (Fatal.decodeError err)
    | Except.ok c =>
      let cf := c.handleUserInput f
      let c := cf.1
      let logged := c.printConfigInfo
      let c := c.makeProxies
      let c := { c with HostCount := (c.Backends.length : Int) }
      let c := { c with NextHost := 0 }
      Except.ok { config := c, flags := cf.2, logged := logged }

/-- Function `GetConfig` (config.go, lines 43-49); `config` is the package
variable holding the singleton, which after a successful call holds the
returned `Config`. -/
def GetConfig (env : Env) (config : Option Config) (f : Flags) (configFile : GoString) :
    Except Fatal Started :=
  match config with
  | none => Config.zero.init env f configFile
  | some c => Except.ok { config := c, flags := f, logged := [] }

/-! ## Selections -/

/-- Modelled from the spec: one selection of the request handler, which is
not in `config.go`: it reads `Backends[NextHost]` and then calls `pickHost`. -/
def Config.selection (c : Config) : Option GoString × Config :=
  (index c.Backends c.NextHost, c.pickHost)

/-- The results of `n` selections made one after the other. -/
def Config.selections (c : Config) : Nat → List (Option GoString)
  | 0 => []
  | n + 1 => c.selection.1 :: Config.selections c.selection.2 n

/-- Modelled from the spec: the cursor values read by `n` selections made
one after the other, each reading `NextHost` and then calling `pickHost`. -/
def Config.selectedIndices (c : Config) : Nat → List Int
  | 0 => []
  | n + 1 => c.NextHost :: Config.selectedIndices c.pickHost n

/-- The states reachable from `c0` by calls of `pickHost`. -/
inductive Reachable (c0 : Config) : Config → Prop where
  | start : Reachable c0 c0
  | step {c : Config} : Reachable c0 c → Reachable c0 c.pickHost

/-! ## Concurrent selections -/

/-- Where one goroutine stands in its selection: before it, after reading the
cursor, after the load of `pickHost` (line 122, the local `nextHost` set), and
after the store of `pickHost` (lines 123-127).  `seen` is the cursor value the
selection observed before the increment. -/
inductive Goroutine where
  | ready
  | observed (seen : Int)
  | loaded (seen : Int) (nextHost : Int)
  | done (seen : Int)
deriving DecidableEq, Repr

/-- The cursor value a goroutine has observed, if it has read the cursor. -/
def Goroutine.seen : Goroutine → Option Int
  | Goroutine.ready => none
  | Goroutine.observed seen => some seen
  | Goroutine.loaded seen _ => some seen
  | Goroutine.done seen => some seen

/-- One step of a goroutine on the shared `Config`: the read of `NextHost`,
then the two statements of `pickHost` (config.go, line 122 and lines 123-127),
each on the `Config` as it is when the step runs.  A goroutine that is done
does nothing. -/
def Goroutine.step (g : Goroutine) (c : Config) : Goroutine × Config :=
  match g with
  | Goroutine.ready => (Goroutine.observed c.NextHost, c)
  | Goroutine.observed seen => (Goroutine.loaded seen (wrapInt (c.NextHost + 1)), c)
  | Goroutine.loaded seen nextHost =>
    (Goroutine.done seen,
      if nextHost ≥ c.HostCount then { c with NextHost := 0 }
      else { c with NextHost := nextHost })
  | Goroutine.done seen => (Goroutine.done seen, c)

/-- The goroutine numbered `g` takes its next step; a number that names no
goroutine changes nothing. -/
def stepAt (g : Nat) (st : Config × List Goroutine) : Config × List Goroutine :=
  match st.2[g]? with
  | none => st
  | some gr => ((gr.step st.1).2, st.2.set g (gr.step st.1).1)

/-- Modelled from the spec: concurrent selections on one `Config`, as an
interleaving of their steps: `schedule` lists, in order, which goroutine
steps next. -/
def runSchedule (schedule : List Nat) (st : Config × List Goroutine) :
    Config × List Goroutine :=
  schedule.foldl (fun st g => stepAt g st) st

/-- The schedule without interleaving: goroutine 0 does its three steps, then
goroutine 1, and so on up to goroutine `M - 1`. -/
def serialSchedule : Nat → List Nat
  | 0 => []
  | M + 1 => serialSchedule M ++ [M, M, M]

/-! ## Concrete pools, flags and requests used as instances -/

/-- The backends `A`, `B`, `C`. -/
def backendsABC : List GoString := ["A".toList, "B".toList, "C".toList]

/-- A pool over `A`, `B`, `C` with the cursor at `cursor`. -/
def poolABC (cursor : Int) : Config :=
  { Backends := backendsABC, Bind := "8000".toList, Mode := "round-robin".toList,
    Certfile := [], Keyfile := [],
    Proxies := backendsABC.map (fun h => some { Director := director h }),
    HostCount := 3, NextHost := cursor }

/-- An environment whose configuration file lists `backends`, bound to port
8000. -/
def envWith (backends : List GoString) : Env :=
  { stat := fun _ => true,
    decodeFile := fun _ c => Except.ok { c with Backends := backends, Bind := "8000".toList } }

/-- No flag given on the command line. -/
def noFlags : Flags := { backendStr := [], bind := [], mode := [], certFile := [], keyFile := [] }

/-- What `init` returns on the file listing `A`, `B`, `C` with no flags. -/
def startedABC : Started :=
  { config := { poolABC 0 with Mode := [] },
    flags := noFlags,
    logged := ["using A as a backend".toList, "using B as a backend".toList,
      "using C as a backend".toList, "listening on port 8000".toList] }

/-- The flags `-b " a:1, b:2" -bind 9000`. -/
def flagsTwoBackends : Flags :=
  { backendStr := " a:1, b:2".toList, bind := "9000".toList, mode := [], certFile := [],
    keyFile := [] }

/-- A GET request for `/status?verbose=1` carrying one header and a body. -/
def sampleRequest : Request :=
  { Method := "GET".toList,
    URL := { Scheme := [], Opaque := [], User := none, Host := [], Path := "/status".toList,
             RawPath := [], RawQuery := "verbose=1".toList, Fragment := [] },
    Proto := "HTTP/1.1".toList,
    Header := [("Accept".toList, ["text/plain".toList])],
    Body := [104, 105],
    Host := "balancer:8000".toList,
    RemoteAddr := "10.0.0.7:51000".toList,
    RequestURI := "/status?verbose=1".toList }

/-- What `init` returns on a file that lists no backend, with no flags. -/
def startedEmpty : Started :=
  { config := { Config.zero with Bind := "8000".toList },
    flags := noFlags,
    logged := ["listening on port 8000".toList] }

/-- Only the backend flag given on the command line. -/
def backendFlag (s : GoString) : Flags := { noFlags with backendStr := s }

/-! ## Arithmetic of the cursor -/

theorem wrapInt_of_inRange (x : Int) (h1 : -(2 ^ 63) ≤ x) (h2 : x ≤ maxInt) : wrapInt x = x := by
  unfold wrapInt
  unfold maxInt at h2
  omega

/-- On a cursor inside `[0, n)` with `n` a Go `int`, `pickHost` is the step
`s ↦ (s + 1) mod n` and nothing else. -/
theorem pickHost_of_nat (c : Config) (n s : Nat) (hn : (n : Int) ≤ maxInt)
    (hc : c.HostCount = n) (hs : c.NextHost = s) (hlt : s < n) :
    c.pickHost = { c with NextHost := (((s + 1) % n : Nat) : Int) } := by
  have hmax : (n : Int) ≤ 2 ^ 63 - 1 := hn
  have hw : wrapInt (c.NextHost + 1) = (s : Int) + 1 := by
    rw [hs]
    apply wrapInt_of_inRange
    · omega
    · unfold maxInt; omega
  unfold Config.pickHost
  simp only [hw, hc]
  by_cases hlast : s + 1 = n
  · have : ((s : Int) + 1) ≥ (n : Int) := by omega
    rw [if_pos this, hlast, Nat.mod_self]
    rfl
  · have hnot : ¬ (((s : Int) + 1) ≥ (n : Int)) := by omega
    rw [if_neg hnot, Nat.mod_eq_of_lt (by omega)]
    push_cast
    rfl

theorem pickHost_frame (c : Config) :
    c.pickHost.Backends = c.Backends ∧ c.pickHost.Proxies = c.Proxies ∧
    c.pickHost.HostCount = c.HostCount ∧ c.pickHost.Bind = c.Bind ∧
    c.pickHost.Mode = c.Mode ∧ c.pickHost.Certfile = c.Certfile ∧
    c.pickHost.Keyfile = c.Keyfile := by
  unfold Config.pickHost
  by_cases h : wrapInt (c.NextHost + 1) ≥ c.HostCount <;> simp [h]

/-! ## The loop of makeProxies -/

theorem foldl_set_length {β : Type} {n : Nat} (g : Fin n → β) (is : List (Fin n)) :
    ∀ ps : List β, (is.foldl (fun ps i => ps.set i.val (g i)) ps).length = ps.length := by
  induction is with
  | nil => intro ps; rfl
  | cons i is ih =>
    intro ps
    rw [List.foldl_cons, ih, List.length_set]

/-- After the assignments `ps[i] = g i` for the indices of `is`, slot `j` holds
`g j` if `j` was among them and is untouched otherwise. -/
theorem foldl_set_getElem? {β : Type} {n : Nat} (g : Fin n → β) (is : List (Fin n)) :
    ∀ (ps : List β) (j : Fin n), j.val < ps.length →
      (is.foldl (fun ps i => ps.set i.val (g i)) ps)[j.val]? =
        if j ∈ is then some (g j) else ps[j.val]? := by
  induction is with
  | nil => intro ps j _; simp
  | cons i is ih =>
    intro ps j hj
    rw [List.foldl_cons, ih (ps.set i.val (g i)) j (by rw [List.length_set]; exact hj)]
    by_cases hmem : j ∈ is
    · simp [hmem]
    · by_cases hji : j = i
      · subst hji
        simp [hmem, List.getElem?_set_self, hj]
      · have hne : i.val ≠ j.val := fun h => hji (Fin.ext h.symm)
        simp [hmem, hji, List.getElem?_set_ne hne]

/-- The proxies built by `makeProxies`, read off at once: slot `i` is a
non-nil proxy whose director is the closure for `Backends[i]`. -/
theorem makeProxies_getElem? (c : Config) (i : Nat) (h : i < c.Backends.length) :
    ∃ p : ReverseProxy, c.makeProxies.Proxies[i]? = some (some p) ∧
      p.Director = director (c.Backends.get ⟨i, h⟩) := by
  refine ⟨{ Director := director (c.Backends.get ⟨i, h⟩) }, ?_, rfl⟩
  unfold Config.makeProxies
  have key := foldl_set_getElem?
    (fun i : Fin c.Backends.length =>
      (some { Director := director (c.Backends.get i) } : Option ReverseProxy))
    (List.finRange c.Backends.length) (List.replicate c.Backends.length none) ⟨i, h⟩
    (by simp [h])
  simp only [List.mem_finRange, if_true] at key
  exact key

theorem makeProxies_length (c : Config) :
    c.makeProxies.Proxies.length = c.Backends.length := by
  unfold Config.makeProxies
  simp only []
  rw [foldl_set_length]
  simp

theorem makeProxies_frame (c : Config) :
    c.makeProxies.Backends = c.Backends ∧ c.makeProxies.Bind = c.Bind ∧
    c.makeProxies.Mode = c.Mode ∧ c.makeProxies.Certfile = c.Certfile ∧
    c.makeProxies.Keyfile = c.Keyfile ∧ c.makeProxies.HostCount = c.HostCount ∧
    c.makeProxies.NextHost = c.NextHost := by
  unfold Config.makeProxies
  simp

/-! ## What init leaves behind -/

/-- A completed `init` found the file, decoded it to some `d`, and returns
`d` after the overrides, with the proxies built, `HostCount` set to the
number of backends and the cursor at 0. -/
theorem init_ok (c : Config) (env : Env) (f : Flags) (configFile : GoString) (r : Started)
    (h : c.init env f configFile = Except.ok r) :
    ∃ d : Config, env.stat configFile = true ∧ env.decodeFile configFile c = Except.ok d ∧
      r.config.Backends = (d.handleUserInput f).1.Backends ∧
      r.config.Proxies = (d.handleUserInput f).1.makeProxies.Proxies ∧
      r.config.HostCount = (r.config.Backends.length : Int) ∧
      r.config.NextHost = 0 := by
  unfold Config.init at h
  by_cases hstat : env.stat configFile = false
  · rw [if_pos hstat] at h
    cases h
  · rw [if_neg hstat] at h
    cases hdec : env.decodeFile configFile c with
    | error err => rw [hdec] at h; cases h
    | ok d =>
      rw [hdec] at h
      simp only [Except.ok.injEq] at h
      subst h
      refine ⟨d, by simpa using hstat, rfl, ?_, rfl, ?_, rfl⟩
      · exact (makeProxies_frame _).1
      · rfl

/-! ## Sequences of selections -/

/-- The cursor values read by `m` selections from cursor `s` in a pool of
`n`: `s, s+1, ...` reduced modulo `n`. -/
theorem selectedIndices_eq (m : Nat) :
    ∀ (c : Config) (n s : Nat), (n : Int) ≤ maxInt → c.HostCount = n → c.NextHost = s → s < n →
      c.selectedIndices m = (List.range m).map (fun j => (((s + j) % n : Nat) : Int)) := by
  induction m with
  | zero => intro c n s _ _ _ _; rfl
  | succ m ih =>
    intro c n s hn hc hs hlt
    have hp := pickHost_of_nat c n s hn hc hs hlt
    have hrec := ih c.pickHost n ((s + 1) % n) hn
      (by rw [hp]; exact hc) (by rw [hp]) (Nat.mod_lt _ (by omega))
    rw [Config.selectedIndices, hrec, List.range_succ_eq_map, List.map_cons, List.map_map]
    congr 1
    · rw [hs, Nat.add_zero, Nat.mod_eq_of_lt hlt]
    · apply List.map_congr_left
      intro j _
      simp only [Function.comp]
      congr 1
      rw [Nat.mod_add_mod, Nat.add_assoc, Nat.add_comm 1 j]

/-- The backends returned by `m` selections from cursor `s` in a pool of `n`. -/
theorem selections_eq (m : Nat) :
    ∀ (c : Config) (n s : Nat), (n : Int) ≤ maxInt → c.HostCount = n → c.NextHost = s → s < n →
      c.selections m = (List.range m).map (fun j => c.Backends[(s + j) % n]?) := by
  induction m with
  | zero => intro c n s _ _ _ _; rfl
  | succ m ih =>
    intro c n s hn hc hs hlt
    have hp := pickHost_of_nat c n s hn hc hs hlt
    have hrec := ih c.pickHost n ((s + 1) % n) hn
      (by rw [hp]; exact hc) (by rw [hp]) (Nat.mod_lt _ (by omega))
    rw [Config.selections]
    simp only [Config.selection]
    rw [hrec, List.range_succ_eq_map, List.map_cons, List.map_map, (pickHost_frame c).1]
    congr 1
    · rw [hs, Nat.add_zero, Nat.mod_eq_of_lt hlt]
      simp [index]
    · apply List.map_congr_left
      intro j _
      simp only [Function.comp]
      rw [Nat.mod_add_mod, Nat.add_assoc, Nat.add_comm 1 j]

/-- One period of the cursor, started at `s`, is the list `0, ..., n-1`
rotated by `s`. -/
theorem period_eq_rotate (n s : Nat) :
    (List.range n).map (fun j => (s + j) % n) = (List.range n).rotate s := by
  apply List.ext_getElem
  · simp
  · intro i h1 h2
    simp only [List.length_map, List.length_range] at h1
    rw [List.getElem_rotate]
    simp [Nat.add_comm]

theorem count_period (n s i : Nat) (hi : i < n) :
    ((List.range n).map (fun j => (s + j) % n)).count i = 1 := by
  rw [period_eq_rotate, (List.rotate_perm (List.range n) s).count_eq i]
  exact List.count_eq_one_of_mem (List.nodup_range n) (List.mem_range.2 hi)

/-- Among `K * n` consecutive cursor values every index below `n` occurs `K`
times. -/
theorem count_periods (n s i : Nat) (hi : i < n) (K : Nat) :
    ((List.range (K * n)).map (fun j => (s + j) % n)).count i = K := by
  induction K with
  | zero => simp
  | succ K ih =>
    rw [Nat.succ_mul, List.range_add, List.map_append, List.count_append, ih, List.map_map]
    have : ((fun j => (s + j) % n) ∘ fun x => K * n + x) = fun j => (s + j) % n := by
      funext j
      simp only [Function.comp]
      rw [← Nat.add_assoc, Nat.add_comm s (K * n), Nat.add_assoc, Nat.mul_comm, Nat.mul_add_mod]
    rw [this, count_period n s i hi]

theorem init_ABC :
    Config.zero.init (envWith backendsABC) noFlags "conduit.toml".toList = Except.ok startedABC := by
  rfl

/-! ## The claims on pickHost -/

/-- C1: for a Config with HostCount = N >= 1 (N a Go int) and 0 <= NextHost < N,
one call of pickHost sets NextHost to (NextHost + 1) mod N and leaves Backends,
Proxies, HostCount, Bind, Mode, Certfile and Keyfile as they were. -/
theorem pickHost_advances_cursor (c : Config) (N : Int) (hN : 1 ≤ N) (hmax : N ≤ maxInt)
    (hc : c.HostCount = N) (h0 : 0 ≤ c.NextHost) (h1 : c.NextHost < N) :
    c.pickHost.NextHost = (c.NextHost + 1) % N ∧
    c.pickHost.Backends = c.Backends ∧ c.pickHost.Proxies = c.Proxies ∧
    c.pickHost.HostCount = c.HostCount ∧ c.pickHost.Bind = c.Bind ∧
    c.pickHost.Mode = c.Mode ∧ c.pickHost.Certfile = c.Certfile ∧
    c.pickHost.Keyfile = c.Keyfile := by
  refine ⟨?_, pickHost_frame c⟩
  have hn : ((N.toNat : Nat) : Int) = N := Int.toNat_of_nonneg (by omega)
  have hs : ((c.NextHost.toNat : Nat) : Int) = c.NextHost := Int.toNat_of_nonneg h0
  have hp := pickHost_of_nat c N.toNat c.NextHost.toNat (by rw [hn]; exact hmax)
    (by rw [hn]; exact hc) hs.symm (by omega)
  rw [hp]
  simp only []
  rw [Int.natCast_mod, Int.natCast_add, hn, hs]
  rfl

/-- Instance of C1: in the pool A, B, C with the cursor on the last backend,
pickHost wraps the cursor to 0. -/
theorem pickHost_advances_cursor_witness :
    (poolABC 2).pickHost.NextHost = (2 + 1) % 3 ∧
    (poolABC 2).pickHost.Backends = backendsABC ∧
    (poolABC 2).pickHost.Proxies = (poolABC 2).Proxies ∧
    (poolABC 2).pickHost.HostCount = 3 ∧ (poolABC 2).pickHost.Bind = "8000".toList ∧
    (poolABC 2).pickHost.Mode = "round-robin".toList ∧ (poolABC 2).pickHost.Certfile = [] ∧
    (poolABC 2).pickHost.Keyfile = [] :=
  pickHost_advances_cursor (poolABC 2) 3 (by decide) (by decide) rfl (by decide) (by decide)

/-- C2: in the pool of N >= 1 backends that init leaves (HostCount = N, cursor
0), the (k+1)-th selection made in sequence returns Backends[k mod N], for
every k; so the first N selections are the backends in construction order and
the (N+1)-th is the first backend again. -/
theorem selections_round_robin (c0 : Config) (env : Env) (f : Flags) (configFile : GoString)
    (r : Started) (N : Nat) (hinit : c0.init env f configFile = Except.ok r)
    (hlen : r.config.Backends.length = N) (hN : 1 ≤ N) (hmax : (N : Int) ≤ maxInt) :
    (∀ k : Nat, ∃ b : GoString, r.config.Backends[k % N]? = some b ∧
      (r.config.selections (k + 1))[k]? = some (some b)) ∧
    r.config.selections N = r.config.Backends.map some ∧
    (r.config.selections (N + 1))[N]? = some r.config.Backends.head? := by
  obtain ⟨d, _, _, _, _, hcount, hnext⟩ := init_ok c0 env f configFile r hinit
  rw [hlen] at hcount
  have hseq : ∀ m, r.config.selections m =
      (List.range m).map (fun j => r.config.Backends[j % N]?) := by
    intro m
    rw [selections_eq m r.config N 0 hmax hcount (by simpa using hnext) (by omega)]
    simp
  refine ⟨?_, ?_, ?_⟩
  · intro k
    have hk : k % N < r.config.Backends.length := by rw [hlen]; exact Nat.mod_lt _ (by omega)
    refine ⟨r.config.Backends[k % N], List.getElem?_eq_getElem hk, ?_⟩
    rw [hseq]
    simp [List.getElem?_eq_getElem hk]
  · rw [hseq]
    apply List.ext_getElem
    · simp [hlen]
    · intro i h1 h2
      simp only [List.length_map, List.length_range] at h1
      simp [Nat.mod_eq_of_lt h1, hlen ▸ h1]
  · rw [hseq]
    simp [List.head?_eq_getElem?]

/-- Instance of C2: the pool that init builds from the backends A, B, C
returns A, B, C, A, B, C on six selections. -/
theorem selections_round_robin_witness :
    ((∀ k : Nat, ∃ b : GoString, startedABC.config.Backends[k % 3]? = some b ∧
      (startedABC.config.selections (k + 1))[k]? = some (some b)) ∧
    startedABC.config.selections 3 = startedABC.config.Backends.map some ∧
    (startedABC.config.selections (3 + 1))[3]? = some startedABC.config.Backends.head?) ∧
    startedABC.config.selections 6 =
      [some "A".toList, some "B".toList, some "C".toList,
       some "A".toList, some "B".toList, some "C".toList] :=
  ⟨selections_round_robin Config.zero (envWith backendsABC) noFlags "conduit.toml".toList
    startedABC 3 init_ABC rfl (by decide) (by decide), by decide⟩

/-- C3: for every N (a Go int; N >= 1 follows from the cursor lying in
[0, N)), every K and every starting cursor in [0, N), the cursor values read
by K*N selections made in sequence contain every index i in [0, N) exactly K
times. -/
theorem selectedIndices_count (c : Config) (N K : Nat) (hmax : (N : Int) ≤ maxInt)
    (hc : c.HostCount = N) (h0 : 0 ≤ c.NextHost) (h1 : c.NextHost < N)
    (i : Int) (hi0 : 0 ≤ i) (hi1 : i < N) :
    (c.selectedIndices (K * N)).count i = K := by
  have hs : ((c.NextHost.toNat : Nat) : Int) = c.NextHost := Int.toNat_of_nonneg h0
  have hi : ((i.toNat : Nat) : Int) = i := Int.toNat_of_nonneg hi0
  rw [selectedIndices_eq (K * N) c N c.NextHost.toNat hmax hc hs.symm (by omega)]
  have hmap : (List.range (K * N)).map (fun j => (((c.NextHost.toNat + j) % N : Nat) : Int)) =
      ((List.range (K * N)).map (fun j => (c.NextHost.toNat + j) % N)).map
        (fun x : Nat => (x : Int)) := by
    rw [List.map_map]
    rfl
  rw [hmap, ← hi, List.count_map_of_injective _ _ Nat.cast_injective]
  exact count_periods N c.NextHost.toNat i.toNat (by omega) K

/-- Instance of C3: from cursor 1 in the pool A, B, C, six selections read
index 0 exactly twice. -/
theorem selectedIndices_count_witness :
    ((poolABC 1).selectedIndices (2 * 3)).count 0 = 2 ∧
    (poolABC 1).selectedIndices (2 * 3) = [1, 2, 0, 1, 2, 0] :=
  ⟨selectedIndices_count (poolABC 1) 3 2 (by decide) rfl (by decide) (by decide)
    0 (by decide) (by decide), by decide⟩

/-- The invariant that pickHost keeps: the pool is the one started from and
the cursor is a natural number below its size. -/
theorem reachable_cursor (c0 c : Config) (n : Nat) (hn : 1 ≤ n) (hmax : (n : Int) ≤ maxInt)
    (hc : c0.HostCount = n) (hs : c0.NextHost = 0) (hreach : Reachable c0 c) :
    c.Backends = c0.Backends ∧ c.Proxies = c0.Proxies ∧ c.HostCount = c0.HostCount ∧
    ∃ s : Nat, c.NextHost = s ∧ s < n := by
  induction hreach with
  | start => exact ⟨rfl, rfl, rfl, 0, by simpa using hs, by omega⟩
  | @step c1 _ ih =>
    obtain ⟨hb, hp, hh, s, hs1, hlt⟩ := ih
    have hstep := pickHost_of_nat c1 n s hmax (by rw [hh]; exact hc) hs1 hlt
    obtain ⟨fb, fp, fh, _⟩ := pickHost_frame c1
    refine ⟨fb.trans hb, fp.trans hp, fh.trans hh, (s + 1) % n, ?_, Nat.mod_lt _ (by omega)⟩
    rw [hstep]

/-- C4: in every state reachable by pickHost calls from what init returns on
a non-empty backend list, HostCount = len(Backends) = len(Proxies) and
0 <= NextHost < HostCount, so indexing Backends and Proxies with NextHost is
in range (and the proxy found there is not nil). -/
theorem reachable_invariant (c0 : Config) (env : Env) (f : Flags) (configFile : GoString)
    (r : Started) (c : Config) (hinit : c0.init env f configFile = Except.ok r)
    (hne : r.config.Backends ≠ []) (hmax : (r.config.Backends.length : Int) ≤ maxInt)
    (hreach : Reachable r.config c) :
    c.HostCount = (c.Backends.length : Int) ∧ c.Backends.length = c.Proxies.length ∧
    0 ≤ c.NextHost ∧ c.NextHost < c.HostCount ∧
    (∃ b : GoString, index c.Backends c.NextHost = some b) ∧
    (∃ p : ReverseProxy, index c.Proxies c.NextHost = some (some p)) := by
  obtain ⟨d, _, _, hback, hprox, hcount, hnext⟩ := init_ok c0 env f configFile r hinit
  have hpos : 1 ≤ r.config.Backends.length := List.length_pos.2 hne
  obtain ⟨hb, hp, hh, s, hs, hlt⟩ :=
    reachable_cursor r.config c r.config.Backends.length hpos hmax hcount hnext hreach
  have hplen : r.config.Proxies.length = r.config.Backends.length := by
    rw [hprox, makeProxies_length, hback]
  have hlt2 : s < (d.handleUserInput f).1.Backends.length := by rw [← hback]; exact hlt
  obtain ⟨p, hget, _⟩ := makeProxies_getElem? (d.handleUserInput f).1 s hlt2
  refine ⟨?_, ?_, ?_, ?_, ?_, ?_⟩
  · rw [hh, hb]; exact hcount
  · rw [hb, hp, hplen]
  · rw [hs]; omega
  · rw [hs, hh, hcount]; omega
  · refine ⟨r.config.Backends[s], ?_⟩
    rw [hs, hb]
    simp [index, List.getElem?_eq_getElem hlt]
  · refine ⟨p, ?_⟩
    rw [hs, hp, hprox]
    simpa [index] using hget

/-- Instance of C4: two pickHost calls after init on the backends A, B, C. -/
theorem reachable_invariant_witness :
    startedABC.config.pickHost.pickHost.HostCount =
      (startedABC.config.pickHost.pickHost.Backends.length : Int) ∧
    startedABC.config.pickHost.pickHost.Backends.length =
      startedABC.config.pickHost.pickHost.Proxies.length ∧
    0 ≤ startedABC.config.pickHost.pickHost.NextHost ∧
    startedABC.config.pickHost.pickHost.NextHost < startedABC.config.pickHost.pickHost.HostCount ∧
    (∃ b : GoString, index startedABC.config.pickHost.pickHost.Backends
      startedABC.config.pickHost.pickHost.NextHost = some b) ∧
    (∃ p : ReverseProxy, index startedABC.config.pickHost.pickHost.Proxies
      startedABC.config.pickHost.pickHost.NextHost = some (some p)) :=
  reachable_invariant Config.zero (envWith backendsABC) noFlags "conduit.toml".toList
    startedABC startedABC.config.pickHost.pickHost init_ABC (by decide) (by decide)
    (Reachable.step (Reachable.step Reachable.start))

/-! ## Replace, Split and Join -/

theorem Replace_nil_eq_filter (s : GoString) (old : Char) :
    strings.Replace s old [] = s.filter (fun ch => ch ≠ old) := by
  induction s with
  | nil => rfl
  | cons c cs ih =>
    by_cases h : c = old
    · simp [strings.Replace, h, ih]
    · simp [strings.Replace, h, ih]

theorem Split_ne_nil (s : GoString) (sep : Char) : strings.Split s sep ≠ [] := by
  cases s with
  | nil => simp [strings.Split]
  | cons c cs =>
    unfold strings.Split
    by_cases h : c = sep
    · simp [h]
    · rw [if_neg h]
      split <;> simp

/-- The two shapes of a split: at a separator a new empty piece starts, and
any other character joins the first piece of the rest. -/
theorem Split_cons (c : Char) (cs : GoString) (sep : Char) :
    ∃ p ps, strings.Split cs sep = p :: ps ∧
      strings.Split (c :: cs) sep = if c = sep then [] :: p :: ps else (c :: p) :: ps := by
  cases hsp : strings.Split cs sep with
  | nil => exact absurd hsp (Split_ne_nil cs sep)
  | cons p ps =>
    refine ⟨p, ps, rfl, ?_⟩
    rw [strings.Split, hsp]

theorem mem_of_mem_Split (s : GoString) (sep : Char) :
    ∀ e ∈ strings.Split s sep, ∀ x ∈ e, x ∈ s ∧ x ≠ sep := by
  induction s with
  | nil =>
    intro e he x hx
    simp [strings.Split] at he
    subst he
    cases hx
  | cons c cs ih =>
    intro e he x hx
    obtain ⟨p, ps, hsp, hcons⟩ := Split_cons c cs sep
    rw [hcons] at he
    rw [hsp] at ih
    by_cases h : c = sep
    · rw [if_pos h] at he
      rcases List.mem_cons.1 he with he | he
      · subst he; cases hx
      · have := ih e he x hx
        exact ⟨List.mem_cons_of_mem _ this.1, this.2⟩
    · rw [if_neg h] at he
      rcases List.mem_cons.1 he with he | he
      · subst he
        rcases List.mem_cons.1 hx with hx | hx
        · subst hx
          exact ⟨List.mem_cons_self _ _, h⟩
        · have := ih p (List.mem_cons_self _ _) x hx
          exact ⟨List.mem_cons_of_mem _ this.1, this.2⟩
      · have := ih e (List.mem_cons_of_mem _ he) x hx
        exact ⟨List.mem_cons_of_mem _ this.1, this.2⟩

theorem Join_cons_head (c : Char) (p : GoString) (ps : List GoString) (sep : GoString) :
    strings.Join ((c :: p) :: ps) sep = c :: strings.Join (p :: ps) sep := by
  cases ps <;> simp [strings.Join]

theorem Join_Split (s : GoString) (sep : Char) :
    strings.Join (strings.Split s sep) [sep] = s := by
  induction s with
  | nil => rfl
  | cons c cs ih =>
    obtain ⟨p, ps, hsp, hcons⟩ := Split_cons c cs sep
    rw [hcons]
    rw [hsp] at ih
    by_cases h : c = sep
    · rw [if_pos h]
      simp [strings.Join, ih, h]
    · rw [if_neg h, Join_cons_head, ih]

/-- Where a split has an empty piece: the string is empty, or it begins or
ends with the separator, or two separators stand side by side. -/
theorem nil_mem_Split (s : GoString) (sep : Char) :
    ([] ∈ strings.Split s sep ↔
      s = [] ∨ [sep] <+: s ∨ [sep] <:+ s ∨ [sep, sep] <:+: s) ∧
    ([] ∈ (strings.Split s sep).tail ↔ [sep] <:+ s ∨ [sep, sep] <:+: s) := by
  induction s with
  | nil => simp [strings.Split]
  | cons c cs ih =>
    obtain ⟨p, ps, hsp, hcons⟩ := Split_cons c cs sep
    rw [hcons]
    rw [hsp] at ih
    obtain ⟨ih1, ih2⟩ := ih
    simp only [List.tail_cons] at ih2
    have hsuf : [sep] <:+ c :: cs ↔ (c = sep ∧ cs = []) ∨ [sep] <:+ cs := by
      rw [List.suffix_cons_iff]
      constructor
      · rintro (h | h)
        · left
          simp only [List.cons.injEq] at h
          exact ⟨h.1.symm, h.2.symm⟩
        · exact Or.inr h
      · rintro (⟨h1, h2⟩ | h)
        · left; rw [h1, h2]
        · exact Or.inr h
    have hinf : [sep, sep] <:+: c :: cs ↔ (c = sep ∧ [sep] <+: cs) ∨ [sep, sep] <:+: cs := by
      rw [List.infix_cons_iff, List.cons_prefix_cons]
      constructor
      · rintro (⟨h1, h2⟩ | h)
        · exact Or.inl ⟨h1.symm, h2⟩
        · exact Or.inr h
      · rintro (⟨h1, h2⟩ | h)
        · exact Or.inl ⟨h1.symm, h2⟩
        · exact Or.inr h
    by_cases h : c = sep
    · rw [if_pos h]
      subst h
      constructor
      · simp
      · simp only [List.tail_cons]
        rw [ih1, hsuf, hinf]
        constructor
        · rintro (a | b | e | d)
          · exact Or.inl (Or.inl ⟨rfl, a⟩)
          · exact Or.inr (Or.inl ⟨rfl, b⟩)
          · exact Or.inl (Or.inr e)
          · exact Or.inr (Or.inr d)
        · rintro ((⟨_, a⟩ | e) | (⟨_, b⟩ | d))
          · exact Or.inl a
          · exact Or.inr (Or.inr (Or.inl e))
          · exact Or.inr (Or.inl b)
          · exact Or.inr (Or.inr (Or.inr d))
    · rw [if_neg h]
      have hsuf2 : [sep] <:+ c :: cs ↔ [sep] <:+ cs := by
        rw [hsuf]
        simp [h]
      have hinf2 : [sep, sep] <:+: c :: cs ↔ [sep, sep] <:+: cs := by
        rw [hinf]
        simp [h]
      have hpre : ¬ [sep] <+: c :: cs := by
        rw [List.cons_prefix_cons]
        exact fun hh => h hh.1.symm
      constructor
      · rw [List.mem_cons, ih2, hsuf2, hinf2]
        constructor
        · rintro (h0 | h0)
          · cases h0
          · exact Or.inr (Or.inr h0)
        · rintro (h0 | h0 | h0)
          · cases h0
          · exact absurd h0 hpre
          · exact Or.inr h0
      · simp only [List.tail_cons]
        rw [ih2, hsuf2, hinf2]

/-! ## handleUserInput -/

theorem handleUserInput_Backends (c : Config) (f : Flags) :
    (c.handleUserInput f).1.Backends =
      if f.backendStr ≠ [] then strings.Split (strings.Replace f.backendStr ' ' []) ','
      else c.Backends := by
  unfold Config.handleUserInput
  by_cases h1 : f.backendStr = [] <;> by_cases h2 : f.bind = [] <;>
    by_cases h3 : f.mode = [] <;> by_cases h4 : f.certFile = [] <;>
    by_cases h5 : f.keyFile = [] <;> simp [h1, h2, h3, h4, h5]

theorem handleUserInput_fields (c : Config) (f : Flags) :
    (c.handleUserInput f).1.Bind = (if f.bind ≠ [] then f.bind else c.Bind) ∧
    (c.handleUserInput f).1.Mode = (if f.mode ≠ [] then f.mode else c.Mode) ∧
    (c.handleUserInput f).1.Certfile = (if f.certFile ≠ [] then f.certFile else c.Certfile) ∧
    (c.handleUserInput f).1.Keyfile = (if f.keyFile ≠ [] then f.keyFile else c.Keyfile) := by
  unfold Config.handleUserInput
  by_cases h1 : f.backendStr = [] <;> by_cases h2 : f.bind = [] <;>
    by_cases h3 : f.mode = [] <;> by_cases h4 : f.certFile = [] <;>
    by_cases h5 : f.keyFile = [] <;> simp [h1, h2, h3, h4, h5]

/-- C9: handleUserInput overrides the file's settings with the command line:
each of Bind, Mode, Certfile, Keyfile becomes the flag's value if that is
non-empty and is otherwise unchanged; Backends is unchanged if the backend flag
is empty and is otherwise the flag with every space removed, split at the
commas, so that no entry holds a space or a comma and joining the entries with
a comma gives the space-free flag back. -/
theorem handleUserInput_overrides (c : Config) (f : Flags) :
    (c.handleUserInput f).1.Bind = (if f.bind ≠ [] then f.bind else c.Bind) ∧
    (c.handleUserInput f).1.Mode = (if f.mode ≠ [] then f.mode else c.Mode) ∧
    (c.handleUserInput f).1.Certfile = (if f.certFile ≠ [] then f.certFile else c.Certfile) ∧
    (c.handleUserInput f).1.Keyfile = (if f.keyFile ≠ [] then f.keyFile else c.Keyfile) ∧
    (f.backendStr = [] → (c.handleUserInput f).1.Backends = c.Backends) ∧
    (f.backendStr ≠ [] →
      (c.handleUserInput f).1.Backends =
        strings.Split (f.backendStr.filter (fun ch => ch ≠ ' ')) ',' ∧
      (∀ e ∈ (c.handleUserInput f).1.Backends, ' ' ∉ e ∧ ',' ∉ e) ∧
      strings.Join (c.handleUserInput f).1.Backends [','] =
        f.backendStr.filter (fun ch => ch ≠ ' ')) := by
  obtain ⟨hb, hm, hcf, hk⟩ := handleUserInput_fields c f
  refine ⟨hb, hm, hcf, hk, ?_, ?_⟩
  · intro h
    rw [handleUserInput_Backends, if_neg (by simpa using h)]
  · intro h
    have hB : (c.handleUserInput f).1.Backends =
        strings.Split (f.backendStr.filter (fun ch => ch ≠ ' ')) ',' := by
      rw [handleUserInput_Backends, if_pos h, Replace_nil_eq_filter]
    refine ⟨hB, ?_, ?_⟩
    · intro e he
      rw [hB] at he
      constructor
      · intro hmem
        have := (mem_of_mem_Split _ _ e he _ hmem).1
        simp at this
      · intro hmem
        exact (mem_of_mem_Split _ _ e he _ hmem).2 rfl
    · rw [hB, Join_Split]

/-- Instance of C9: the flags replace the backends A, B, C by a:1, b:2 and the
port 8000 by 9000, and leave the mode alone. -/
theorem handleUserInput_overrides_witness :
    ((poolABC 0).handleUserInput flagsTwoBackends).1.Backends = ["a:1".toList, "b:2".toList] ∧
    ((poolABC 0).handleUserInput flagsTwoBackends).1.Bind = "9000".toList ∧
    ((poolABC 0).handleUserInput flagsTwoBackends).1.Mode = "round-robin".toList ∧
    strings.Join ((poolABC 0).handleUserInput flagsTwoBackends).1.Backends [','] =
      "a:1,b:2".toList :=
  ⟨((handleUserInput_overrides (poolABC 0) flagsTwoBackends).2.2.2.2.2 (by decide)).1,
    (handleUserInput_overrides (poolABC 0) flagsTwoBackends).1,
    (handleUserInput_overrides (poolABC 0) flagsTwoBackends).2.1,
    ((handleUserInput_overrides (poolABC 0) flagsTwoBackends).2.2.2.2.2 (by decide)).2.2⟩

/-! ## makeProxies and the director -/

/-- C7: after makeProxies there is one proxy per backend, each bound to its own
backend: len(Proxies) = len(Backends), and for every index i < len(Backends)
the entry Proxies[i] is a proxy whose Director sets, on every request,
URL.Host to Backends[i] and URL.Scheme to http. -/
theorem makeProxies_one_per_backend (c : Config) (i : Nat) (h : i < c.Backends.length) :
    c.makeProxies.Proxies.length = c.Backends.length ∧
    ∃ p : ReverseProxy, c.makeProxies.Proxies[i]? = some (some p) ∧
      ∀ r : Request, (p.Director r).URL.Host = c.Backends.get ⟨i, h⟩ ∧
        (p.Director r).URL.Scheme = "http".toList := by
  refine ⟨makeProxies_length c, ?_⟩
  obtain ⟨p, hget, hdir⟩ := makeProxies_getElem? c i h
  refine ⟨p, hget, ?_⟩
  intro r
  rw [hdir]
  exact ⟨rfl, rfl⟩

/-- Instance of C7: the first of the three proxies for A, B, C sends to A. -/
theorem makeProxies_one_per_backend_witness :
    (poolABC 0).makeProxies.Proxies.length = 3 ∧
    ∃ p : ReverseProxy, (poolABC 0).makeProxies.Proxies[0]? = some (some p) ∧
      ∀ r : Request, (p.Director r).URL.Host = "A".toList ∧
        (p.Director r).URL.Scheme = "http".toList :=
  makeProxies_one_per_backend (poolABC 0) 0 (by decide)

/-- C8: the Director of any proxy built by makeProxies changes only URL.Scheme
and URL.Host of the request: method, path, query, headers and body, and every
other field, are as before. -/
theorem director_changes_destination_only (c : Config) (i : Nat) (p : ReverseProxy)
    (hp : c.makeProxies.Proxies[i]? = some (some p)) (r : Request) :
    (p.Director r).Method = r.Method ∧ (p.Director r).URL.Path = r.URL.Path ∧
    (p.Director r).URL.RawQuery = r.URL.RawQuery ∧ (p.Director r).Header = r.Header ∧
    (p.Director r).Body = r.Body ∧
    p.Director r =
      { r with URL := { r.URL with Scheme := (p.Director r).URL.Scheme,
                                   Host := (p.Director r).URL.Host } } := by
  have hi : i < c.Backends.length := by
    rw [← makeProxies_length c]
    by_contra hge
    rw [List.getElem?_eq_none (by omega)] at hp
    cases hp
  obtain ⟨q, hget, hdir⟩ := makeProxies_getElem? c i hi
  rw [hget] at hp
  simp only [Option.some.injEq] at hp
  subst hp
  rw [hdir]
  exact ⟨rfl, rfl, rfl, rfl, rfl, rfl⟩

/-- Instance of C8: the proxy for B rewrites the sample request to
http://B/status?verbose=1 and leaves the rest alone. -/
theorem director_changes_destination_only_witness :
    ((director "B".toList sampleRequest).Method = "GET".toList ∧
    (director "B".toList sampleRequest).URL.Path = "/status".toList ∧
    (director "B".toList sampleRequest).URL.RawQuery = "verbose=1".toList ∧
    (director "B".toList sampleRequest).Header = [("Accept".toList, ["text/plain".toList])] ∧
    (director "B".toList sampleRequest).Body = [104, 105] ∧
    director "B".toList sampleRequest =
      { sampleRequest with URL := { sampleRequest.URL with Scheme := "http".toList,
                                                            Host := "B".toList } }) :=
  director_changes_destination_only (poolABC 0) 1 { Director := director "B".toList } rfl
    sampleRequest

/-! ## Construction -/

/-- When the file is found and decoded, `init` completes, with the backends
that `handleUserInput` leaves. -/
theorem init_completes (c0 : Config) (env : Env) (f : Flags) (configFile : GoString)
    (d : Config) (hstat : env.stat configFile = true)
    (hdec : env.decodeFile configFile c0 = Except.ok d) :
    ∃ r : Started, c0.init env f configFile = Except.ok r ∧
      r.config.Backends = (d.handleUserInput f).1.Backends ∧
      r.config.Proxies = (d.handleUserInput f).1.makeProxies.Proxies ∧
      r.config.HostCount = (r.config.Backends.length : Int) ∧ r.config.NextHost = 0 := by
  unfold Config.init
  rw [if_neg (by simp [hstat]), hdec]
  exact ⟨_, rfl, (makeProxies_frame _).1, rfl, rfl, rfl⟩

/-- C5, as the code has it: an empty backend list is not rejected.  When the
configuration file is found and decoded and the backend list is empty after
the command-line overrides, init (and GetConfig on first use) returns a Config
with no backends, no proxies, HostCount = 0 and NextHost = 0. -/
theorem init_accepts_empty_backends (c0 : Config) (env : Env) (f : Flags)
    (configFile : GoString) (d : Config) (hstat : env.stat configFile = true)
    (hdec : env.decodeFile configFile c0 = Except.ok d)
    (hempty : (d.handleUserInput f).1.Backends = []) :
    ∃ r : Started, c0.init env f configFile = Except.ok r ∧
      r.config.Backends = [] ∧ r.config.Proxies = [] ∧
      r.config.HostCount = 0 ∧ r.config.NextHost = 0 ∧
      (c0 = Config.zero → GetConfig env none f configFile = Except.ok r) := by
  obtain ⟨r, hr, hb, hp, hc, hn⟩ := init_completes c0 env f configFile d hstat hdec
  have hb0 : r.config.Backends = [] := hb.trans hempty
  refine ⟨r, hr, hb0, ?_, ?_, hn, ?_⟩
  · have hlen := makeProxies_length (d.handleUserInput f).1
    rw [hempty, ← hp] at hlen
    exact List.length_eq_zero.1 hlen
  · rw [hc, hb0]
    rfl
  · intro h0
    subst h0
    exact hr

/-- Instance of the amended C5: the file without backends. -/
theorem init_accepts_empty_backends_witness :
    ∃ r : Started, Config.zero.init (envWith []) noFlags "conduit.toml".toList = Except.ok r ∧
      r.config.Backends = [] ∧ r.config.Proxies = [] ∧
      r.config.HostCount = 0 ∧ r.config.NextHost = 0 ∧
      (Config.zero = Config.zero →
        GetConfig (envWith []) none noFlags "conduit.toml".toList = Except.ok r) :=
  init_accepts_empty_backends Config.zero (envWith []) noFlags "conduit.toml".toList
    { Config.zero with Bind := "8000".toList } rfl rfl rfl

/-- C5 fails on the code: GetConfig on a file without backends and no backend
flag returns a Config, with HostCount = 0, on which the first selection is out
of range. -/
theorem GetConfig_empty_backends_counterexample :
    GetConfig (envWith []) none noFlags "conduit.toml".toList = Except.ok startedEmpty ∧
    startedEmpty.config.Backends = [] ∧ startedEmpty.config.HostCount = 0 ∧
    startedEmpty.config.selection.1 = none := by
  refine ⟨rfl, rfl, rfl, rfl⟩

/-- C6, as the code has it: backend entries are not checked.  For a non-empty
backend flag, when the file is found and decoded, init returns a Config whose
Backends are the pieces of the space-free flag between its commas; the empty
string is one of them exactly when the space-free flag is empty, begins or
ends with a comma, or has two commas in a row. -/
theorem init_backends_from_flag (c0 : Config) (env : Env) (f : Flags)
    (configFile : GoString) (d : Config) (hstat : env.stat configFile = true)
    (hdec : env.decodeFile configFile c0 = Except.ok d) (hflag : f.backendStr ≠ []) :
    ∃ r : Started, c0.init env f configFile = Except.ok r ∧
      r.config.Backends = strings.Split (f.backendStr.filter (fun ch => ch ≠ ' ')) ',' ∧
      ([] ∈ r.config.Backends ↔
        f.backendStr.filter (fun ch => ch ≠ ' ') = [] ∨
        [','] <+: f.backendStr.filter (fun ch => ch ≠ ' ') ∨
        [','] <:+ f.backendStr.filter (fun ch => ch ≠ ' ') ∨
        [',', ','] <:+: f.backendStr.filter (fun ch => ch ≠ ' ')) := by
  obtain ⟨r, hr, hb, _, _, _⟩ := init_completes c0 env f configFile d hstat hdec
  have hB : r.config.Backends =
      strings.Split (f.backendStr.filter (fun ch => ch ≠ ' ')) ',' := by
    rw [hb, handleUserInput_Backends, if_pos hflag, Replace_nil_eq_filter]
  refine ⟨r, hr, hB, ?_⟩
  rw [hB]
  exact (nil_mem_Split _ _).1

/-- Instance of the amended C6: the flag a,,b. -/
theorem init_backends_from_flag_witness :
    ∃ r : Started,
      Config.zero.init (envWith backendsABC) (backendFlag "a,,b".toList) "conduit.toml".toList =
        Except.ok r ∧
      r.config.Backends =
        strings.Split ((backendFlag "a,,b".toList).backendStr.filter (fun ch => ch ≠ ' ')) ',' ∧
      ([] ∈ r.config.Backends ↔
        (backendFlag "a,,b".toList).backendStr.filter (fun ch => ch ≠ ' ') = [] ∨
        [','] <+: (backendFlag "a,,b".toList).backendStr.filter (fun ch => ch ≠ ' ') ∨
        [','] <:+ (backendFlag "a,,b".toList).backendStr.filter (fun ch => ch ≠ ' ') ∨
        [',', ','] <:+: (backendFlag "a,,b".toList).backendStr.filter (fun ch => ch ≠ ' ')) :=
  init_backends_from_flag Config.zero (envWith backendsABC) (backendFlag "a,,b".toList)
    "conduit.toml".toList { Config.zero with Backends := backendsABC, Bind := "8000".toList }
    rfl rfl (by decide)

/-- C6 fails on the code: the backend flags a,,b and a, and a single space are
accepted by GetConfig, each giving a Config with an empty backend entry. -/
theorem GetConfig_empty_entry_counterexample :
    (GetConfig (envWith backendsABC) none (backendFlag "a,,b".toList)
        "conduit.toml".toList).toOption.map (fun r => r.config.Backends) =
      some ["a".toList, [], "b".toList] ∧
    (GetConfig (envWith backendsABC) none (backendFlag "a,".toList)
        "conduit.toml".toList).toOption.map (fun r => r.config.Backends) =
      some ["a".toList, []] ∧
    (GetConfig (envWith backendsABC) none (backendFlag " ".toList)
        "conduit.toml".toList).toOption.map (fun r => r.config.Backends) =
      some [[]] := by
  refine ⟨by decide, by decide, by decide⟩

/-! ## Concurrent selections -/

/-- A goroutine left alone for its three steps observes the cursor and does
what `pickHost` does. -/
theorem stepAt_three (g : Nat) (c : Config) (gs : List Goroutine)
    (hg : gs[g]? = some Goroutine.ready) :
    stepAt g (stepAt g (stepAt g (c, gs))) =
      (c.pickHost, gs.set g (Goroutine.done c.NextHost)) := by
  have hlt : g < gs.length := by
    by_contra hge
    rw [List.getElem?_eq_none (by omega)] at hg
    cases hg
  have h1 : stepAt g (c, gs) = (c, gs.set g (Goroutine.observed c.NextHost)) := by
    simp [stepAt, hg, Goroutine.step]
  have h2 : stepAt g (c, gs.set g (Goroutine.observed c.NextHost)) =
      (c, gs.set g (Goroutine.loaded c.NextHost (wrapInt (c.NextHost + 1)))) := by
    simp [stepAt, List.getElem?_set_self hlt, Goroutine.step, List.set_set]
  have h3 : stepAt g (c, gs.set g (Goroutine.loaded c.NextHost (wrapInt (c.NextHost + 1)))) =
      (c.pickHost, gs.set g (Goroutine.done c.NextHost)) := by
    simp [stepAt, List.getElem?_set_self hlt, Goroutine.step, List.set_set, Config.pickHost]
  rw [h1, h2, h3]

theorem runSchedule_append (s1 s2 : List Nat) (st : Config × List Goroutine) :
    runSchedule (s1 ++ s2) st = runSchedule s2 (runSchedule s1 st) := by
  simp [runSchedule, List.foldl_append]

/-- After the first `j` of `M` goroutines have run one after the other from
cursor `s` in a pool of `n`, goroutine `k < j` has observed `(s + k) mod n`, the
others have not started, and the cursor is `(s + j) mod n`. -/
theorem runSchedule_serial (c : Config) (n s M : Nat) (hn : (n : Int) ≤ maxInt)
    (hc : c.HostCount = n) (hs : c.NextHost = s) (hlt : s < n) :
    ∀ j : Nat, j ≤ M → ∃ cj : Config,
      runSchedule (serialSchedule j) (c, List.replicate M Goroutine.ready) =
        (cj, (List.range j).map (fun k => Goroutine.done (((s + k) % n : Nat) : Int)) ++
          List.replicate (M - j) Goroutine.ready) ∧
      cj.HostCount = n ∧ cj.NextHost = (((s + j) % n : Nat) : Int) := by
  intro j
  induction j with
  | zero =>
    intro _
    refine ⟨c, ?_, hc, ?_⟩
    · simp [serialSchedule, runSchedule]
    · rw [hs, Nat.add_zero, Nat.mod_eq_of_lt hlt]
  | succ j ih =>
    intro hj
    obtain ⟨cj, hrun, hcj, hsj⟩ := ih (by omega)
    have hpos : 0 < n := by omega
    have hmod : (s + j) % n < n := Nat.mod_lt _ hpos
    have hp := pickHost_of_nat cj n ((s + j) % n) hn hcj hsj hmod
    refine ⟨cj.pickHost, ?_, ?_, ?_⟩
    · rw [serialSchedule, runSchedule_append, hrun]
      have hready : ((List.range j).map (fun k => Goroutine.done (((s + k) % n : Nat) : Int)) ++
          List.replicate (M - j) Goroutine.ready)[j]? = some Goroutine.ready := by
        rw [List.getElem?_append_right (by simp)]
        simp only [List.length_map, List.length_range, Nat.sub_self]
        have hrep0 : List.replicate (M - j) Goroutine.ready =
            Goroutine.ready :: List.replicate (M - (j + 1)) Goroutine.ready := by
          rw [← List.replicate_succ]
          congr 1
          omega
        rw [hrep0]
        simp
      show stepAt j (stepAt j (stepAt j _)) = _
      rw [stepAt_three j cj _ hready, hsj]
      congr 1
      rw [List.set_append_right _ _ (by simp)]
      simp only [List.length_map, List.length_range, Nat.sub_self]
      have hrep : List.replicate (M - j) Goroutine.ready =
          Goroutine.ready :: List.replicate (M - (j + 1)) Goroutine.ready := by
        rw [← List.replicate_succ]
        congr 1
        omega
      rw [hrep, List.set_cons_zero, List.range_succ, List.map_append]
      simp
    · rw [(pickHost_frame cj).2.2.1, hcj]
    · rw [hp]
      simp only []
      rw [Nat.mod_add_mod, Nat.add_assoc]

/-- The cursor values of fewer than a full period are all different. -/
theorem period_prefix_nodup (n s M : Nat) (hM : M ≤ n) :
    ((List.range M).map (fun k => (s + k) % n)).Nodup := by
  have hfull : ((List.range n).map (fun k => (s + k) % n)).Nodup := by
    rw [period_eq_rotate]
    exact (List.rotate_perm (List.range n) s).nodup_iff.2 (List.nodup_range n)
  have hsub : List.Sublist ((List.range M).map (fun k => (s + k) % n))
      ((List.range n).map (fun k => (s + k) % n)) :=
    List.Sublist.map _ (List.range_sublist.2 hM)
  exact hfull.sublist hsub

/-- C10, as the code has it: the cursor advance is a load and a store with
nothing between them to keep other callers out, so it is atomic only when the
selections do not interleave.  For every M, when M selections on one Config
run one after the other, the (k+1)-th observes the cursor (start + k) mod N, no
update is lost and the cursor ends at (start + M) mod N; if M <= N no two of
them observe the same cursor value. -/
theorem serial_selections_linear (c : Config) (N s M : Nat) (hmax : (N : Int) ≤ maxInt)
    (hc : c.HostCount = N) (hs : c.NextHost = s) (hlt : s < N) :
    (runSchedule (serialSchedule M) (c, List.replicate M Goroutine.ready)).1.NextHost =
      (((s + M) % N : Nat) : Int) ∧
    (runSchedule (serialSchedule M) (c, List.replicate M Goroutine.ready)).2 =
      (List.range M).map (fun k => Goroutine.done (((s + k) % N : Nat) : Int)) ∧
    (M ≤ N →
      ((runSchedule (serialSchedule M) (c, List.replicate M Goroutine.ready)).2.map
        Goroutine.seen).Nodup) := by
  obtain ⟨cM, hrun, _, hsM⟩ := runSchedule_serial c N s M hmax hc hs hlt M (Nat.le_refl M)
  have hrun2 : runSchedule (serialSchedule M) (c, List.replicate M Goroutine.ready) =
      (cM, (List.range M).map (fun k => Goroutine.done (((s + k) % N : Nat) : Int))) := by
    rw [hrun, Nat.sub_self, List.replicate_zero, List.append_nil]
  rw [hrun2]
  refine ⟨hsM, rfl, ?_⟩
  intro hM
  rw [List.map_map]
  have hinj : Function.Injective (fun x : Nat => (some (x : Int) : Option Int)) := by
    intro a b hab
    simpa using hab
  have := (period_prefix_nodup N s M hM).map hinj
  rw [List.map_map] at this
  exact this

/-- Instance of the amended C10: two selections, one after the other, from
cursor 0 in the pool A, B, C observe 0 and 1 and leave the cursor at 2. -/
theorem serial_selections_linear_witness :
    (runSchedule (serialSchedule 2) (poolABC 0, List.replicate 2 Goroutine.ready)).1.NextHost =
      (((0 + 2) % 3 : Nat) : Int) ∧
    (runSchedule (serialSchedule 2) (poolABC 0, List.replicate 2 Goroutine.ready)).2 =
      (List.range 2).map (fun k => Goroutine.done (((0 + k) % 3 : Nat) : Int)) ∧
    (2 ≤ 3 →
      ((runSchedule (serialSchedule 2) (poolABC 0, List.replicate 2 Goroutine.ready)).2.map
        Goroutine.seen).Nodup) :=
  serial_selections_linear (poolABC 0) 3 0 2 (by decide) rfl rfl (by decide)

/-- C10 fails on the code: two selections from cursor 0 in the pool A, B, C
whose steps alternate both run to the end, both observe the cursor 0, and
leave the cursor at 1, where (0 + 2) mod 3 = 2: one update is lost. -/
theorem interleaved_selections_counterexample :
    (runSchedule [0, 1, 0, 1, 0, 1] (poolABC 0, [Goroutine.ready, Goroutine.ready])).2 =
      [Goroutine.done 0, Goroutine.done 0] ∧
    (runSchedule [0, 1, 0, 1, 0, 1] (poolABC 0, [Goroutine.ready, Goroutine.ready])).1.NextHost
      = 1 ∧
    (runSchedule [0, 1, 0, 1, 0, 1] (poolABC 0, [Goroutine.ready, Goroutine.ready])).1.NextHost
      ≠ (0 + 2) % 3 := by
  refine ⟨by decide, by decide, by decide⟩


end EpsConduit
